import Mathlib

/-!
Verification development for the clipton clipboard manager
(`src/clipton.py`).  The Python source is shallowly embedded below:
pure functions become Lean functions, the external world (clock,
network, subprocesses) is passed in explicitly as data, and fallible
code returns `Except`.
-/

namespace Clipton

/-- ASCII whitespace characters recognised per character by Python
`str.isspace` (all inputs relevant to the claims are ASCII). -/
def pySpace : List Char := [' ', '\t', '\n', '\r', '\x0b', '\x0c']

/-- Whether a character is whitespace (Python `c.isspace()`, ASCII fragment). -/
def isSpaceChar (c : Char) : Bool := pySpace.contains c

namespace Utils

/-- `Utils.space`: check if a string contains a whitespace character. -/
def space (text : String) : Bool := text.toList.any isSpaceChar

end Utils

/-- Trailing-whitespace removal on a character list. -/
def rstripL (cs : List Char) : List Char := (cs.reverse.dropWhile isSpaceChar).reverse

/-- Python `str.rstrip()`. -/
def rstrip (s : String) : String := String.mk (rstripL s.toList)

/-- Python `str.strip()` (both ends). -/
def strip (s : String) : String := String.mk ((rstripL s.toList).dropWhile isSpaceChar)

/-- Python `str.startswith`. -/
def startswith (s p : String) : Bool := s.toList.take p.toList.length == p.toList

/-- ASCII fragment of the regex character class `[\w-]`. -/
def isWordChar (c : Char) : Bool := c.isAlphanum || c = '_' || c = '-'

/-- Consume a literal pattern from the front of `cs` (every pattern
character stands for itself, as for regex-escaped text). -/
def dropLit : List Char → List Char → Option (List Char)
  | [], cs => some cs
  | _ :: _, [] => none
  | p :: ps, c :: cs => if p = c then dropLit ps cs else none

/-- Consume a pattern from the front of `cs` where the pattern character
`.` matches any character, mirroring the unescaped regex dot in the
source pattern `https://youtu.be/`. -/
def dropPat : List Char → List Char → Option (List Char)
  | [], cs => some cs
  | _ :: _, [] => none
  | p :: ps, c :: cs => if p = '.' ∨ p = c then dropPat ps cs else none

/-- Try to match the regex `https://youtu.be/([\w-]+)(\?t=([\d]+))?` at
the start of `cs`.  Returns group 1 (the id) and, when the optional
group matched, group 2 (the full `?t=<digits>` text, exactly what the
source later interpolates). -/
def matchYoutuBeAt (cs : List Char) : Option (List Char × Option (List Char)) :=
  match dropPat "https://youtu.be/".toList cs with
  | none => none
  | some rest =>
    let idc := rest.takeWhile isWordChar
    if idc = [] then none
    else
      let after := rest.drop idc.length
      match dropLit "?t=".toList after with
      | none => some (idc, none)
      | some afterT =>
        let ds := afterT.takeWhile Char.isDigit
        if ds = [] then some (idc, none)
        else some (idc, some ("?t=".toList ++ ds))

/-- `re.search` for the youtu.be pattern: try each start position from
the left, first match wins. -/
def searchYoutuBe : List Char → Option (List Char × Option (List Char))
  | [] => none
  | c :: cs =>
    match matchYoutuBeAt (c :: cs) with
    | some r => some r
    | none => searchYoutuBe cs

/-- Try the playlist alternative `playlist\?list=([\w-]+)` after the host. -/
def matchYtMusicPlaylist (rest : List Char) : Option (List Char ⊕ List Char) :=
  match dropLit "playlist?list=".toList rest with
  | none => none
  | some r3 =>
    let idc := r3.takeWhile isWordChar
    if idc = [] then none else some (Sum.inr idc)

/-- Try to match the regex
`https://music\.youtube\.com/(watch\?v=([\w-]+)|playlist\?list=([\w-]+))`
at the start of `cs`; the left alternative is tried first.  `Sum.inl`
is group 2 (watch id), `Sum.inr` is group 3 (playlist id). -/
def matchYtMusicAt (cs : List Char) : Option (List Char ⊕ List Char) :=
  match dropLit "https://music.youtube.com/".toList cs with
  | none => none
  | some rest =>
    match dropLit "watch?v=".toList rest with
    | none => matchYtMusicPlaylist rest
    | some r2 =>
      let idc := r2.takeWhile isWordChar
      if idc = [] then matchYtMusicPlaylist rest else some (Sum.inl idc)

/-- `re.search` for the music.youtube pattern. -/
def searchYtMusic : List Char → Option (List Char ⊕ List Char)
  | [] => none
  | c :: cs =>
    match matchYtMusicAt (c :: cs) with
    | some r => some r
    | none => searchYtMusic cs

/-- Settings relevant to the embedded operations (`Settings.read` fills
these from the settings file; the `converters` dict is modelled by one
field per key). -/
structure Settings where
  max_items : Nat
  heavy_paste : Nat
  enable_titles : Bool
  enable_converters : Bool
  reverse_join : Bool
  converters_youtu_be : Bool
  converters_youtube_music : Bool
deriving DecidableEq, Repr

namespace Converters

/-- `Converters.youtu_be`.  Note the source assigns
`timestamp = match.group(2)`, the whole optional `?t=<digits>` capture,
and interpolates it directly after `&t=`. -/
def youtu_be (text : String) : String :=
  if Utils.space text then ""
  else
    match searchYoutuBe text.toList with
    | none => ""
    | some (vid, some grp2) =>
        "https://www.youtube.com/watch?v=" ++ String.mk vid
          ++ "&t=" ++ String.mk grp2 ++ "s"
    | some (vid, none) => "https://www.youtube.com/watch?v=" ++ String.mk vid

/-- `Converters.youtube_music`. -/
def youtube_music (text : String) : String :=
  if Utils.space text then ""
  else
    match searchYtMusic text.toList with
    | none => ""
    | some (Sum.inl vid) => "https://www.youtube.com/watch?v=" ++ String.mk vid
    | some (Sum.inr pid) => "https://www.youtube.com/playlist?list=" ++ String.mk pid

/-- `Converters.convert`: each enabled converter is tried in declared
order while no previous one has produced text. -/
def convert (st : Settings) (text : String) : String :=
  let new_text := ""
  let new_text := if new_text = "" ∧ st.converters_youtu_be = true
                  then youtu_be text else new_text
  let new_text := if new_text = "" ∧ st.converters_youtube_music = true
                  then youtube_music text else new_text
  new_text

end Converters

/-- A clipboard history item (`class Item`). -/
structure Item where
  text : String
  date : Nat
  num_lines : Nat
  title : String
deriving DecidableEq, Repr

/-- `Item.from_text`: build a fresh item; the call to
`Utils.get_seconds()` is modelled by the explicit `now` argument. -/
def Item.from_text (text : String) (now : Nat) (title : String) : Item :=
  { text := text, date := now, num_lines := text.toList.count '\n' + 1, title := title }

/-- Outcomes of the external calls made while resolving a title
(`Utils.get_url_type` already catches its own failures and yields
`"none"`; the page fetch `urlopen(text).read().decode("utf-8")` can
fail, which `page = .error ()` represents; the stdlib HTML parser
applied to the fetched page is external and its result is carried as
`parsed_title`). -/
structure TitleWorld where
  url_type : String
  page : Except Unit String
  parsed_title : String

namespace Utils

/-- `Utils.get_title`: the second network call (the page fetch) is not
guarded by any try/except in the source, so its failure propagates. -/
def get_title (w : TitleWorld) (text : String) : Except Unit String :=
  if startswith text "https://" && !(Utils.space text) then
    if !(w.url_type = "text/html") then Except.ok ""
    else
      match w.page with
      | .error e => .error e
      | .ok _ => .ok w.parsed_title
  else .ok ""

end Utils

/-- External inputs of one `Items.add` call: the clock reading and the
title-resolution world. -/
structure AddWorld where
  now : Nat
  titleW : TitleWorld

/-- The title-resolution step inside `Items.add`: `title = ""`, then
`title = Utils.get_title(text)` when titles are enabled. -/
def resolve_title (st : Settings) (w : TitleWorld) (text : String) : Except Unit String :=
  if st.enable_titles then Utils.get_title w text else .ok ""

/-- Remove the first list element satisfying `p`, returning it together
with the remaining list (the source's scan-break-`remove` sequence,
where `list.remove` deletes exactly the found object). -/
def extractFirst (p : Item → Bool) : List Item → Option (Item × List Item)
  | [] => none
  | x :: xs =>
    if p x then some (x, xs)
    else
      match extractFirst p xs with
      | some (y, ys) => some (y, x :: ys)
      | none => none

namespace Items

/-- `Items.add`.  The returned `Bool` records whether `Items.write`
(the persistence step) ran; the three silent rejections return before
it.  An `Except.error` is a Python exception escaping the call. -/
def add (st : Settings) (w : AddWorld) (items : List Item) (text : String) :
    Except Unit (List Item × Bool) :=
  let text := rstrip text
  if text = "" then .ok (items, false)
  else if startswith text "file://" then .ok (items, false)
  else if text.length > st.heavy_paste then .ok (items, false)
  else
    match extractFirst (fun item => item.text == text) items with
    | some (the_item, rest) => .ok ((the_item :: rest).take st.max_items, true)
    | none =>
      match resolve_title st w.titleW text with
      | .error e => .error e
      | .ok title => .ok ((Item.from_text text w.now title :: items).take st.max_items, true)

/-- The list `Items.add` holds just before its final truncation
`Items.items = Items.items[0:Settings.max_items]`; used to state that
the truncation drops exactly a tail. -/
def add_untruncated (st : Settings) (w : AddWorld) (items : List Item) (text : String) :
    Except Unit (List Item) :=
  let text := rstrip text
  if text = "" then .ok items
  else if startswith text "file://" then .ok items
  else if text.length > st.heavy_paste then .ok items
  else
    match extractFirst (fun item => item.text == text) items with
    | some (the_item, rest) => .ok (the_item :: rest)
    | none =>
      match resolve_title st w.titleW text with
      | .error e => .error e
      | .ok title => .ok (Item.from_text text w.now title :: items)

/-- External inputs of one `Items.insert` call; the converter branch
performs two `Items.add` calls, each with its own world. -/
structure InsertWorld where
  w1 : AddWorld
  w2 : AddWorld

/-- `Items.insert`: run the converters when enabled; when one fires,
record `Original: <text>` and then the converted text, both through
`Items.add`; otherwise add the raw text. -/
def insert (st : Settings) (iw : InsertWorld) (items : List Item) (text : String) :
    Except Unit (List Item) :=
  if st.enable_converters then
    let converted := Converters.convert st text
    if converted ≠ "" then
      match add st iw.w1 items ("Original: " ++ text) with
      | .error e => .error e
      | .ok r1 =>
        match add st iw.w2 r1.1 converted with
        | .error e => .error e
        | .ok r2 => .ok r2.1
    else
      match add st iw.w1 items text with
      | .error e => .error e
      | .ok r => .ok r.1
  else
    match add st iw.w1 items text with
    | .error e => .error e
    | .ok r => .ok r.1

/-- Join the texts of a list with single spaces (Python `" ".join`). -/
def spaceJoin : List String → String
  | [] => ""
  | [s] => s
  | s :: rest => s ++ " " ++ spaceJoin rest

/-- `Items.join`: slice `count` items starting at `index` (reversed
when `reverse_join`), space-join their stripped texts, delete the
slice, re-add the merged text, and return the new list together with
the merged text handed to `Utils.copy_text`. -/
def join (st : Settings) (w : AddWorld) (items : List Item) (index num : Nat) :
    Except Unit (List Item × String) :=
  let item_slice :=
    if st.reverse_join then ((items.drop index).take num).reverse
    else (items.drop index).take num
  let s := spaceJoin (item_slice.map (fun item => strip item.text))
  match add st w (items.take index ++ items.drop (index + num)) s with
  | .error e => .error e
  | .ok r => .ok (r.1, s)

/-- `Items.delete_all`. -/
def delete_all (_items : List Item) : List Item := []

/-- `Items.confirm_delete`: the answer line of the yes/no sub-prompt is
external input; `delete_all` runs only on a stripped answer `Yes`. -/
def confirm_delete (ans : String) (items : List Item) : List Item :=
  if strip ans = "Yes" then delete_all items else items

end Items

/-- The store operation the dispatcher performs for one selector
outcome. -/
inductive RofiAction where
  | select (index : Nat)
  | delete (index : Nat)
  | join (index num : Nat)
  | confirmDeleteAll
  | cancel
deriving DecidableEq, Repr

/-- What the dispatcher does after the action: re-open the menu with a
given cursor row, or stop. -/
inductive MenuNext where
  | Displaying (index : Nat)
  | Done
deriving DecidableEq, Repr

/-- The dispatch step of `Rofi.show`: from the selector's answer line
(`none` for an empty response) and exit status, the action taken and
whether/where the menu is shown again.  `code` 10 deletes and re-opens
at the same row, 11..18 join `code - 9` items and re-open at the top,
19 runs the delete-all confirmation, anything else selects. -/
def Rofi.dispatch (ans : Option Nat) (code : Int) : RofiAction × MenuNext :=
  match ans with
  | none => (RofiAction.cancel, MenuNext.Done)
  | some index =>
    if code = 10 then (RofiAction.delete index, MenuNext.Displaying index)
    else if 11 ≤ code ∧ code ≤ 18 then
      (RofiAction.join index (code - 9).toNat, MenuNext.Displaying 0)
    else if code = 19 then (RofiAction.confirmDeleteAll, MenuNext.Done)
    else (RofiAction.select index, MenuNext.Done)

/-- What happened in the body of one watcher iteration. -/
inductive IterEvent where
  /-- `copyevent` returned a non-zero status. -/
  | notifierFail
  /-- `xclip` returned a non-zero status. -/
  | clipFail
  /-- the clipboard read succeeded but was empty. -/
  | emptyClip
  /-- a non-empty clipboard text was read and inserted. -/
  | inserted
  /-- an exception was raised and caught by the loop's handler. -/
  | exn
deriving DecidableEq, Repr

/-- Result of one watcher iteration: keep looping with the new counter,
or terminate the process with an exit status. -/
inductive WatchStep where
  | running (iterations : Nat)
  | fatalExit (status : Nat)
deriving DecidableEq, Repr

namespace Watcher

/-- The iteration cap of `Watcher.start`. -/
def max_iterations : Nat := 100

/-- One iteration of the `Watcher.start` loop: increment the counter,
exit fatally when it passes the cap, otherwise reset it to zero exactly
on a successful non-empty insertion. -/
def step (iterations : Nat) (ev : IterEvent) : WatchStep :=
  let iterations := iterations + 1
  if iterations > max_iterations then WatchStep.fatalExit 1
  else
    match ev with
    | IterEvent.inserted => WatchStep.running 0
    | _ => WatchStep.running iterations

end Watcher

/-- The program behaviour `main` selects. -/
inductive MainAction where
  | runWatcher
  | showMenu
  | noop
deriving DecidableEq, Repr

/-- The mode dispatch of `main`: the first CLI argument (after the
program name) when present, else `show`; `watcher` starts the loop,
`show` loads the store and shows the menu, anything else matches
neither branch. -/
def main_action (argv : List String) : MainAction :=
  let mode := match argv with
    | _ :: m :: _ => m
    | _ => "show"
  if mode = "watcher" then MainAction.runWatcher
  else if mode = "show" then MainAction.showMenu
  else MainAction.noop

/-! ## Concrete settings and worlds used by closed theorems -/

/-- The default settings (all features enabled). -/
def stTitles : Settings := ⟨2000, 5000, true, true, false, true, true⟩

/-- A world where the content-type probe reports `text/html` but the
subsequent page fetch fails (for example, the body fails to decode as
UTF-8 or the connection drops between the two requests). -/
def fetchFailWorld : AddWorld := ⟨0, ⟨"text/html", Except.error (), ""⟩⟩

/-- A world where the content-type probe itself fails: the probe's own
handler catches the failure and reports `"none"`. -/
def probeFailWorld : AddWorld := ⟨0, ⟨"none", Except.ok "<html>", "T"⟩⟩

/-! ## Helper lemmas about extractFirst -/

theorem extractFirst_none (p : Item → Bool) (l : List Item) (h : ∀ x ∈ l, p x = false) :
    extractFirst p l = none := by
  induction l with
  | nil => rfl
  | cons x xs ih =>
    have hx : p x = false := h x (List.mem_cons_self x xs)
    have ih' := ih (fun y hy => h y (List.mem_cons_of_mem x hy))
    simp [extractFirst, hx, ih']

theorem extractFirst_append (p : Item → Bool) (pre : List Item) (it : Item)
    (post : List Item) (hpre : ∀ j ∈ pre, p j = false) (hit : p it = true) :
    extractFirst p (pre ++ it :: post) = some (it, pre ++ post) := by
  induction pre with
  | nil => simp [extractFirst, hit]
  | cons x xs ih =>
    have hx : p x = false := hpre x (List.mem_cons_self x xs)
    have ih' := ih (fun j hj => hpre j (List.mem_cons_of_mem x hj))
    simp [extractFirst, hx, ih']

theorem extractFirst_some_pred (p : Item → Bool) (l : List Item) :
    ∀ y ys, extractFirst p l = some (y, ys) → p y = true := by
  induction l with
  | nil => intro y ys h; exact absurd h (by simp [extractFirst])
  | cons x xs ih =>
    intro y ys h
    simp only [extractFirst] at h
    by_cases hx : p x = true
    · rw [if_pos hx] at h
      obtain ⟨rfl, rfl⟩ : x = y ∧ xs = ys := by
        constructor <;> [exact congrArg Prod.fst (Option.some.inj h);
                         exact congrArg Prod.snd (Option.some.inj h)]
      exact hx
    · rw [if_neg hx] at h
      rcases hE : extractFirst p xs with _ | ⟨y', ys'⟩
      · rw [hE] at h; cases h
      · rw [hE] at h
        have hy : y' = y := congrArg Prod.fst (Option.some.inj h)
        exact hy ▸ ih y' ys' hE

/-! ## Claim theorems -/

/-- C1: for the input `https://youtu.be/abc123?t=30` the `youtu_be`
converter interpolates the whole `?t=30` capture after `&t=`, producing
`https://www.youtube.com/watch?v=abc123&t=?t=30s` instead of the
`https://www.youtube.com/watch?v=abc123&t=30s` the claim states. -/
theorem youtu_be_timestamp_output :
    Converters.youtu_be "https://youtu.be/abc123?t=30"
      = "https://www.youtube.com/watch?v=abc123&t=?t=30s" ∧
    Converters.youtu_be "https://youtu.be/abc123?t=30"
      ≠ "https://www.youtube.com/watch?v=abc123&t=30s" := by
  exact ⟨rfl, by decide⟩

/-- C2: a failure of the title-resolution step can abort an insertion:
when the content-type probe reports `text/html` and the ensuing page
fetch fails, `Items.add` propagates the exception and the item is not
inserted; only a failure inside the probe itself resolves to an empty
title with the insertion still performed. -/
theorem add_title_failure_aborts_insertion :
    Items.add stTitles fetchFailWorld [] "https://example.com/x" = Except.error () ∧
    Items.add stTitles probeFailWorld [] "https://example.com/x" =
      Except.ok ([{ text := "https://example.com/x", date := 0, num_lines := 1,
                    title := "" }], true) := by
  exact ⟨rfl, rfl⟩

/-- C3 counterexample: invoking the program with first argument `foo`
does not behave as if invoked with `show`. -/
theorem main_unrecognized_arg_not_show :
    main_action ["clipton.py", "foo"] ≠ MainAction.showMenu := by
  decide

/-- C3 (amended): an invocation whose first CLI argument is neither
`watcher` nor `show` matches neither branch of `main`: no menu and no
watcher runs. -/
theorem main_unrecognized_arg_noop (prog arg : String) (rest : List String)
    (h1 : arg ≠ "watcher") (h2 : arg ≠ "show") :
    main_action (prog :: arg :: rest) = MainAction.noop := by
  simp only [main_action, if_neg h1, if_neg h2]

/-- C3 witness: the amended statement at the concrete argument `foo`. -/
theorem main_unrecognized_arg_noop_witness :
    main_action ["clipton.py", "foo"] = MainAction.noop :=
  main_unrecognized_arg_noop "clipton.py" "foo" [] (by decide) (by decide)

/-- C4 counterexample: on selector status 19 (with a non-empty
response) the dispatcher does not transition to `Displaying 0`. -/
theorem dispatch_code19_not_redisplay :
    (Rofi.dispatch (some 0) 19).2 ≠ MenuNext.Displaying 0 := by
  decide

/-- C4 (amended): on selector status 19 with a non-empty response the
dispatcher runs the confirm-then-delete-all yes/no sub-prompt (which
empties the store exactly on the answer `Yes`) and then terminates
without re-opening the menu. -/
theorem dispatch_code19_confirm_then_done (index : Nat) (items : List Item) :
    Rofi.dispatch (some index) 19 = (RofiAction.confirmDeleteAll, MenuNext.Done) ∧
    Items.confirm_delete "Yes" items = [] ∧
    Items.confirm_delete "No" items = items := by
  refine ⟨?_, rfl, rfl⟩
  simp only [Rofi.dispatch]
  norm_num

/-- C8: inserting a text whose right-trimmed form is empty, starts with
`file://`, or exceeds `heavy_paste` leaves the store unchanged, raises
no error in any external world, and performs no persistence write. -/
theorem add_rejected_silent_noop (st : Settings) (w : AddWorld) (items : List Item)
    (text : String)
    (h : rstrip text = "" ∨ startswith (rstrip text) "file://" = true ∨
         st.heavy_paste < (rstrip text).length) :
    Items.add st w items text = Except.ok (items, false) := by
  simp only [Items.add]
  split_ifs with h1 h2 h3
  · rfl
  · rfl
  · rfl
  · exact absurd h (by push_neg; exact ⟨h1, by simpa using h2, by omega⟩)

/-- C8 witness: the three rejection kinds at concrete inputs. -/
theorem add_rejected_silent_noop_witness :
    Items.add stTitles fetchFailWorld [] "   " = Except.ok ([], false) ∧
    Items.add stTitles fetchFailWorld [] "file://etc/passwd" = Except.ok ([], false) ∧
    Items.add ⟨2000, 3, true, true, false, true, true⟩ fetchFailWorld [] "abcd"
      = Except.ok ([], false) := by
  refine ⟨?_, ?_, ?_⟩
  · exact add_rejected_silent_noop _ _ _ _ (Or.inl (by decide))
  · exact add_rejected_silent_noop _ _ _ _ (Or.inr (Or.inl (by decide)))
  · exact add_rejected_silent_noop _ _ _ _ (Or.inr (Or.inr (by decide)))

/-- C9: one watcher iteration increments the counter and terminates the
process with failure status 1 exactly when the incremented counter
exceeds the cap of 100 — never earlier; below the cap, the counter is
reset to 0 exactly on an iteration that read a non-empty clipboard text
and inserted it, and keeps the incremented value on every other
iteration (notifier failure, clipboard failure, empty clipboard, or a
caught exception). -/
theorem watcher_step_contract (c : Nat) (ev : IterEvent) :
    (Watcher.step c ev = WatchStep.fatalExit 1 ↔ Watcher.max_iterations < c + 1) ∧
    (c + 1 ≤ Watcher.max_iterations →
      Watcher.step c ev = WatchStep.running (if ev = IterEvent.inserted then 0 else c + 1)) := by
  simp only [Watcher.step]
  by_cases h : c + 1 > Watcher.max_iterations
  · rw [if_pos h]
    exact ⟨⟨fun _ => h, fun _ => rfl⟩, fun hle => absurd h (by omega)⟩
  · rw [if_neg h]
    refine ⟨⟨fun hcontra => ?_, fun hgt => absurd hgt h⟩, fun _ => ?_⟩
    · cases ev <;> simp_all
    · cases ev <;> simp

/-- C9 witness: the contract evaluated on concrete counters and events. -/
theorem watcher_step_contract_witness :
    Watcher.step 0 IterEvent.notifierFail = WatchStep.running 1 ∧
    Watcher.step 99 IterEvent.inserted = WatchStep.running 0 ∧
    Watcher.step 100 IterEvent.emptyClip = WatchStep.fatalExit 1 := by
  refine ⟨?_, ?_, ?_⟩
  · have h := (watcher_step_contract 0 IterEvent.notifierFail).2 (by decide)
    simpa using h
  · have h := (watcher_step_contract 99 IterEvent.inserted).2 (by decide)
    simpa using h
  · exact (watcher_step_contract 100 IterEvent.emptyClip).1.mpr (by decide)

/-- C5: when the right-trimmed inserted text equals the text of an
existing item (and that text passes the rejection checks, with no
earlier item sharing it), `Items.add` moves exactly that item — all
fields intact — to the front, in every external world (no clock or
title call is made); no new item is created and the store cannot grow. -/
theorem add_duplicate_moves_front_unchanged (st : Settings) (w : AddWorld)
    (pre post : List Item) (it : Item) (text : String)
    (ht : rstrip text = it.text)
    (hne : it.text ≠ "")
    (hfp : startswith it.text "file://" = false)
    (hlen : it.text.length ≤ st.heavy_paste)
    (hpre : ∀ j ∈ pre, j.text ≠ it.text) :
    Items.add st w (pre ++ it :: post) text
      = Except.ok ((it :: (pre ++ post)).take st.max_items, true) ∧
    (0 < st.max_items →
      ((it :: (pre ++ post)).take st.max_items).head? = some it) ∧
    ((it :: (pre ++ post)).take st.max_items).length ≤ (pre ++ it :: post).length := by
  have hfp' : ¬ (startswith it.text "file://" = true) := by simp [hfp]
  have hlen' : ¬ (it.text.length > st.heavy_paste) := by omega
  have hext := extractFirst_append (fun item => item.text == it.text) pre it post
      (fun j hj => beq_eq_false_iff_ne.mpr (hpre j hj)) (beq_self_eq_true it.text)
  refine ⟨?_, ?_, ?_⟩
  · simp only [Items.add, ht, if_neg hne, if_neg hfp', if_neg hlen', hext]
  · intro hpos
    obtain ⟨m, hm⟩ : ∃ m, st.max_items = m + 1 := ⟨st.max_items - 1, by omega⟩
    rw [hm, List.take_succ_cons]
    rfl
  · simp only [List.length_take, List.length_cons, List.length_append]
    omega

/-- C5 witness: re-inserting `a` moves the original item (created
earlier, with its original date and title) to the front unchanged. -/
theorem add_duplicate_moves_front_unchanged_witness :
    Items.add stTitles fetchFailWorld
      [⟨"b", 150, 1, ""⟩, ⟨"a", 100, 1, "T"⟩] "a"
      = Except.ok ([⟨"a", 100, 1, "T"⟩, ⟨"b", 150, 1, ""⟩], true) := by
  have h := add_duplicate_moves_front_unchanged stTitles fetchFailWorld
      [⟨"b", 150, 1, ""⟩] [] ⟨"a", 100, 1, "T"⟩ "a"
      (by decide) (by decide) (by decide) (by decide)
      (by intro j hj; fin_cases hj; decide)
  exact h.1

/-- Any successful `Items.add` keeps an already-bounded store bounded:
rejected inputs leave it unchanged and accepted inputs end in the
truncation to `max_items`. -/
theorem add_ok_length (st : Settings) (w : AddWorld) (l : List Item) (t : String)
    (r : List Item × Bool) (hok : Items.add st w l t = Except.ok r)
    (hlen : l.length ≤ st.max_items) : r.1.length ≤ st.max_items := by
  simp only [Items.add] at hok
  split_ifs at hok with h1 h2 h3
  · injection hok with h; subst h; exact hlen
  · injection hok with h; subst h; exact hlen
  · injection hok with h; subst h; exact hlen
  · rcases hE : extractFirst (fun item => item.text == rstrip t) l with _ | ⟨y, ys⟩
    · rw [hE] at hok
      rcases hT : resolve_title st w.titleW (rstrip t) with e | ttl
      · rw [hT] at hok; cases hok
      · rw [hT] at hok
        injection hok with h; subst h
        simp only [List.length_take]
        omega
    · rw [hE] at hok
      injection hok with h; subst h
      simp only [List.length_take]
      omega

/-- C6: a store of length at most `max_items` still has length at most
`max_items` after any successful `Items.insert`; moreover, whenever an
`Items.add` actually writes, the written list is the pre-truncation
list with exactly its tail beyond `max_items` dropped — the front is
preserved and nothing is dropped when the bound is not exceeded. -/
theorem insert_bounded_and_trim_drops_tail (st : Settings) (iw : Items.InsertWorld)
    (items out : List Item) (text : String) :
    (items.length ≤ st.max_items → Items.insert st iw items text = Except.ok out →
       out.length ≤ st.max_items) ∧
    (∀ (w : AddWorld) (l : List Item) (t : String) (r : List Item × Bool) (u : List Item),
       Items.add st w l t = Except.ok r → r.2 = true →
       Items.add_untruncated st w l t = Except.ok u →
       (∃ dropped, r.1 ++ dropped = u) ∧ r.1.length = min st.max_items u.length ∧
       (u.length ≤ st.max_items → r.1 = u)) := by
  constructor
  · intro hlen hok
    simp only [Items.insert] at hok
    split_ifs at hok with hen hfire
    · rcases hA1 : Items.add st iw.w1 items ("Original: " ++ text) with e | r1
      · rw [hA1] at hok; cases hok
      · rw [hA1] at hok
        dsimp only at hok
        rcases hA2 : Items.add st iw.w2 r1.1 (Converters.convert st text) with e | r2
        · rw [hA2] at hok; cases hok
        · rw [hA2] at hok
          injection hok with h; subst h
          exact add_ok_length st iw.w2 r1.1 _ r2 hA2
            (add_ok_length st iw.w1 items _ r1 hA1 hlen)
    · rcases hA : Items.add st iw.w1 items text with e | r
      · rw [hA] at hok; cases hok
      · rw [hA] at hok
        injection hok with h; subst h
        exact add_ok_length st iw.w1 items text r hA hlen
    · rcases hA : Items.add st iw.w1 items text with e | r
      · rw [hA] at hok; cases hok
      · rw [hA] at hok
        injection hok with h; subst h
        exact add_ok_length st iw.w1 items text r hA hlen
  · intro w l t r u hr hw hu
    simp only [Items.add] at hr
    simp only [Items.add_untruncated] at hu
    split_ifs at hr hu with h1 h2 h3
    · injection hr with h; subst h; cases hw
    · injection hr with h; subst h; cases hw
    · injection hr with h; subst h; cases hw
    · have hshape : r.1 = u.take st.max_items := by
        rcases hE : extractFirst (fun item => item.text == rstrip t) l with _ | ⟨y, ys⟩
        · rw [hE] at hr hu
          rcases hT : resolve_title st w.titleW (rstrip t) with e | ttl
          · rw [hT] at hr; cases hr
          · rw [hT] at hr hu
            injection hr with h; subst h
            injection hu with h; subst h
            rfl
        · rw [hE] at hr hu
          injection hr with h; subst h
          injection hu with h; subst h
          rfl
      refine ⟨⟨u.drop st.max_items, ?_⟩, ?_, ?_⟩
      · rw [hshape]; exact List.take_append_drop st.max_items u
      · rw [hshape]; exact List.length_take st.max_items u
      · intro hle; rw [hshape]; exact List.take_of_length_le hle

/-- Settings with `max_items = 2` and titles disabled. -/
def stMax2 : Settings := ⟨2, 5000, false, true, false, true, true⟩

/-- Default-size settings with titles disabled. -/
def stNoTitles : Settings := ⟨2000, 5000, false, true, false, true, true⟩

/-- A benign external world whose clock reads 7. -/
def wPlain : AddWorld := ⟨7, ⟨"none", Except.ok "", ""⟩⟩

/-- A pair of benign worlds (clocks 7 and 8) for `Items.insert`. -/
def iwPlain : Items.InsertWorld := ⟨wPlain, ⟨8, ⟨"none", Except.ok "", ""⟩⟩⟩

/-- C6 witness: with `max_items = 2`, inserting `c` over the store
`[b, a]` yields `[c, b]` — within the bound, and the truncation dropped
exactly the tail `[a]` of the pre-truncation list `[c, b, a]`. -/
theorem insert_bounded_and_trim_drops_tail_witness :
    Items.insert stMax2 iwPlain [⟨"b", 1, 1, ""⟩, ⟨"a", 0, 1, ""⟩] "c"
      = Except.ok [⟨"c", 7, 1, ""⟩, ⟨"b", 1, 1, ""⟩] ∧
    ([⟨"c", 7, 1, ""⟩, ⟨"b", 1, 1, ""⟩] : List Item).length ≤ stMax2.max_items ∧
    (∃ dropped, ([⟨"c", 7, 1, ""⟩, ⟨"b", 1, 1, ""⟩] : List Item) ++ dropped
        = [⟨"c", 7, 1, ""⟩, ⟨"b", 1, 1, ""⟩, ⟨"a", 0, 1, ""⟩]) := by
  have h := insert_bounded_and_trim_drops_tail stMax2 iwPlain
      [⟨"b", 1, 1, ""⟩, ⟨"a", 0, 1, ""⟩] [⟨"c", 7, 1, ""⟩, ⟨"b", 1, 1, ""⟩] "c"
  refine ⟨rfl, h.1 (by decide) rfl, ?_⟩
  have h2 := h.2 wPlain [⟨"b", 1, 1, ""⟩, ⟨"a", 0, 1, ""⟩] "c"
      ([⟨"c", 7, 1, ""⟩, ⟨"b", 1, 1, ""⟩], true)
      [⟨"c", 7, 1, ""⟩, ⟨"b", 1, 1, ""⟩, ⟨"a", 0, 1, ""⟩] rfl rfl rfl
  exact h2.1

/-- C7: with `reverse_join` off and the `num` items starting at `index`
in range, when the space-join `s` of their stripped texts passes the
rejection checks, duplicates no remaining item, and its title resolves,
`Items.join` removes exactly those `num` consecutive items and puts a
single new item at the front whose text is `s` — the order-preserving
space-separated concatenation — returning `s` for the clipboard. -/
theorem join_merges_and_removes (st : Settings) (w : AddWorld) (items : List Item)
    (index num : Nat) (s ttl : String)
    (hrev : st.reverse_join = false)
    (hnum : 1 ≤ num)
    (hrange : index + num ≤ items.length)
    (hs : s = Items.spaceJoin (((items.drop index).take num).map (fun item => strip item.text)))
    (hclean : rstrip s = s)
    (hne : s ≠ "")
    (hfp : startswith s "file://" = false)
    (hlen : s.length ≤ st.heavy_paste)
    (hnodup : ∀ j ∈ items.take index ++ items.drop (index + num), j.text ≠ s)
    (htitle : resolve_title st w.titleW s = Except.ok ttl)
    (hmax : items.length ≤ st.max_items) :
    Items.join st w items index num =
      Except.ok (Item.from_text s w.now ttl :: (items.take index ++ items.drop (index + num)),
                 s) := by
  have hfp' : ¬ (startswith s "file://" = true) := by simp [hfp]
  have hlen' : ¬ (s.length > st.heavy_paste) := by omega
  have hext := extractFirst_none (fun item => item.text == s)
      (items.take index ++ items.drop (index + num))
      (fun j hj => beq_eq_false_iff_ne.mpr (hnodup j hj))
  have hrem : (Item.from_text s w.now ttl
      :: (items.take index ++ items.drop (index + num))).length ≤ st.max_items := by
    simp only [List.length_cons, List.length_append, List.length_take, List.length_drop]
    omega
  have hadd : Items.add st w (items.take index ++ items.drop (index + num)) s
      = Except.ok (Item.from_text s w.now ttl
          :: (items.take index ++ items.drop (index + num)), true) := by
    simp only [Items.add, hclean, if_neg hne, if_neg hfp', if_neg hlen', hext, htitle]
    rw [List.take_of_length_le hrem]
  simp only [Items.join, hrev, Bool.false_eq_true, if_false, ← hs, hadd]

/-- C7 witness: joining the first two of `[a, b, c]` yields the store
`[a b, c]` with the merged text `a b` returned. -/
theorem join_merges_and_removes_witness :
    Items.join stNoTitles wPlain
      [⟨"a", 1, 1, ""⟩, ⟨"b", 2, 1, ""⟩, ⟨"c", 3, 1, ""⟩] 0 2
      = Except.ok ([⟨"a b", 7, 1, ""⟩, ⟨"c", 3, 1, ""⟩], "a b") := by
  have h := join_merges_and_removes stNoTitles wPlain
      [⟨"a", 1, 1, ""⟩, ⟨"b", 2, 1, ""⟩, ⟨"c", 3, 1, ""⟩] 0 2 "a b" ""
      rfl (by decide) (by decide) (by decide) (by decide) (by decide) (by decide)
      (by decide) (by intro j hj; fin_cases hj; decide) rfl (by decide)
  exact h

/-- A successful accepted `Items.add` puts an item with the trimmed
text at the front (whether moved or freshly created). -/
theorem add_ok_head (st : Settings) (w : AddWorld) (l : List Item) (t : String)
    (r : List Item × Bool)
    (hne : rstrip t ≠ "") (hfp : startswith (rstrip t) "file://" = false)
    (hlen : (rstrip t).length ≤ st.heavy_paste)
    (hpos : 0 < st.max_items)
    (hok : Items.add st w l t = Except.ok r) :
    ∃ it rest, r.1 = it :: rest ∧ it.text = rstrip t := by
  obtain ⟨m, hm⟩ : ∃ m, st.max_items = m + 1 := ⟨st.max_items - 1, by omega⟩
  simp only [Items.add] at hok
  split_ifs at hok with h1 h2 h3
  · exact absurd h1 hne
  · exact absurd h2 (by simp [hfp])
  · exact absurd h3 (by omega)
  · rcases hE : extractFirst (fun item => item.text == rstrip t) l with _ | ⟨y, ys⟩
    · rw [hE] at hok
      rcases hT : resolve_title st w.titleW (rstrip t) with e | ttl
      · rw [hT] at hok; cases hok
      · rw [hT] at hok
        injection hok with h; subst h
        exact ⟨Item.from_text (rstrip t) w.now ttl, l.take m,
          by rw [hm, List.take_succ_cons], rfl⟩
    · rw [hE] at hok
      injection hok with h; subst h
      exact ⟨y, ys.take m, by rw [hm, List.take_succ_cons],
        eq_of_beq (extractFirst_some_pred _ l y ys hE)⟩

/-- A successful accepted `Items.add` onto a store whose front item
does not share the trimmed text keeps that front item at position 1. -/
theorem add_ok_second (st : Settings) (w : AddWorld) (h0 : Item) (tl : List Item)
    (t : String) (r : List Item × Bool)
    (hne : rstrip t ≠ "") (hfp : startswith (rstrip t) "file://" = false)
    (hlen : (rstrip t).length ≤ st.heavy_paste)
    (hmax : 2 ≤ st.max_items)
    (hh0 : h0.text ≠ rstrip t)
    (hok : Items.add st w (h0 :: tl) t = Except.ok r) :
    ∃ it rest, r.1 = it :: h0 :: rest ∧ it.text = rstrip t := by
  obtain ⟨m, hm⟩ : ∃ m, st.max_items = m + 2 := ⟨st.max_items - 2, by omega⟩
  have hp0 : (h0.text == rstrip t) = false := beq_eq_false_iff_ne.mpr hh0
  simp only [Items.add] at hok
  split_ifs at hok with h1 h2 h3
  · exact absurd h1 hne
  · exact absurd h2 (by simp [hfp])
  · exact absurd h3 (by omega)
  · have hcons : extractFirst (fun item => item.text == rstrip t) (h0 :: tl)
        = match extractFirst (fun item => item.text == rstrip t) tl with
          | some (y, ys) => some (y, h0 :: ys)
          | none => none := by
      simp [extractFirst, hp0]
    rcases hE : extractFirst (fun item => item.text == rstrip t) tl with _ | ⟨y, ys⟩
    · rw [hcons, hE] at hok
      rcases hT : resolve_title st w.titleW (rstrip t) with e | ttl
      · rw [hT] at hok; cases hok
      · rw [hT] at hok
        injection hok with h; subst h
        exact ⟨Item.from_text (rstrip t) w.now ttl, tl.take m,
          by rw [hm, List.take_succ_cons, List.take_succ_cons], rfl⟩
    · rw [hcons, hE] at hok
      injection hok with h; subst h
      exact ⟨y, ys.take m, by rw [hm, List.take_succ_cons, List.take_succ_cons],
        eq_of_beq (extractFirst_some_pred _ tl y ys hE)⟩

/-- C10: with converters enabled, when no converter fires the raw text
is added unchanged as the single entry of the call; when one fires, the
call performs exactly two `Items.add` calls — `Original: ` + raw text
first, then the converted text — and (when both texts pass the
rejection checks, differ after trimming, and at least two items fit)
the resulting store has the converted text at index 0 and the
`Original: …` entry at index 1. -/
theorem insert_converter_contract (st : Settings) (iw : Items.InsertWorld)
    (items : List Item) (text : String)
    (hen : st.enable_converters = true) :
    (Converters.convert st text = "" →
       Items.insert st iw items text
         = Except.map Prod.fst (Items.add st iw.w1 items text)) ∧
    (Converters.convert st text ≠ "" →
       Items.insert st iw items text
         = Except.bind (Items.add st iw.w1 items ("Original: " ++ text))
             (fun r1 => Except.map Prod.fst
               (Items.add st iw.w2 r1.1 (Converters.convert st text)))) ∧
    (∀ out : List Item,
       Converters.convert st text ≠ "" →
       rstrip ("Original: " ++ text) ≠ "" →
       startswith (rstrip ("Original: " ++ text)) "file://" = false →
       (rstrip ("Original: " ++ text)).length ≤ st.heavy_paste →
       rstrip (Converters.convert st text) ≠ "" →
       startswith (rstrip (Converters.convert st text)) "file://" = false →
       (rstrip (Converters.convert st text)).length ≤ st.heavy_paste →
       rstrip (Converters.convert st text) ≠ rstrip ("Original: " ++ text) →
       2 ≤ st.max_items →
       Items.insert st iw items text = Except.ok out →
       ∃ it0 it1 rest, out = it0 :: it1 :: rest ∧
         it0.text = rstrip (Converters.convert st text) ∧
         it1.text = rstrip ("Original: " ++ text)) := by
  refine ⟨?_, ?_, ?_⟩
  · intro hquiet
    simp only [Items.insert, hen, if_true, hquiet]
    rcases hA : Items.add st iw.w1 items text with e | r <;> simp [hA, Except.map]
  · intro hfire
    simp only [Items.insert, hen, if_true, if_pos hfire]
    rcases hA1 : Items.add st iw.w1 items ("Original: " ++ text) with e | r1
    · simp [Except.bind]
    · dsimp only
      rcases hA2 : Items.add st iw.w2 r1.1 (Converters.convert st text) with e | r2 <;>
        simp [hA2, Except.bind, Except.map]
  · intro out hfire hone hofp holen hcne hcfp hclen hdiff hmax hok
    simp only [Items.insert, hen, if_true, if_pos hfire] at hok
    rcases hA1 : Items.add st iw.w1 items ("Original: " ++ text) with e | r1
    · rw [hA1] at hok; cases hok
    · rw [hA1] at hok
      dsimp only at hok
      rcases hA2 : Items.add st iw.w2 r1.1 (Converters.convert st text) with e | r2
      · rw [hA2] at hok; cases hok
      · rw [hA2] at hok
        injection hok with h; subst h
        obtain ⟨it1, rest1, hr1, hit1⟩ := add_ok_head st iw.w1 items
          ("Original: " ++ text) r1 hone hofp holen (by omega) hA1
        rw [hr1] at hA2
        obtain ⟨it0, rest0, hr2, hit0⟩ := add_ok_second st iw.w2 it1 rest1
          (Converters.convert st text) r2 hcne hcfp hclen hmax
          (by rw [hit1]; exact fun hcontra => hdiff hcontra.symm) hA2
        exact ⟨it0, it1, rest0, hr2, hit0, hit1⟩

/-- C10 witness: inserting `https://youtu.be/abc` on an empty store
with converters on puts the converted URL at index 0 and the
`Original: …` entry at index 1. -/
theorem insert_converter_contract_witness :
    ∃ it0 it1 rest,
      ([⟨"https://www.youtube.com/watch?v=abc", 8, 1, ""⟩,
        ⟨"Original: https://youtu.be/abc", 7, 1, ""⟩] : List Item) = it0 :: it1 :: rest ∧
      it0.text = rstrip (Converters.convert stNoTitles "https://youtu.be/abc") ∧
      it1.text = rstrip ("Original: " ++ "https://youtu.be/abc") :=
  (insert_converter_contract stNoTitles iwPlain [] "https://youtu.be/abc" rfl).2.2
    [⟨"https://www.youtube.com/watch?v=abc", 8, 1, ""⟩,
     ⟨"Original: https://youtu.be/abc", 7, 1, ""⟩]
    (by decide) (by decide) (by decide) (by decide) (by decide) (by decide)
    (by decide) (by decide) (by decide) rfl

end Clipton
